import Mathlib

/-!
Shallow embedding of `src/javascripts/alphabet.js` — an alphabet-table
interpreter providing longest-match tokenization, sort-key derivation,
case conversion and accent stripping over a caller-supplied symbol table.

Strings are modelled as lists of characters (`Str`); a table entry
`[symbol, legacyPattern, sortBase, accentRank, caseValue]` becomes a
`SymbolDef` record; JavaScript exceptions become `Except AlphaError`.
-/

/-- A JavaScript string, modelled as its list of characters. -/
abbrev Str := List Char

/-- One alphabet-table entry `[symbol, legacyPattern, sortBase, accentRank, caseValue]`. -/
structure SymbolDef where
  symbol : Str
  legacyPattern : Option Str
  sortBase : Int
  accentRank : Int
  caseValue : Int
  deriving Repr, DecidableEq

/-- An alphabet is an ordered list of symbol definitions. -/
abbrev Alphabet := List SymbolDef

/-- The errors thrown by `alphabet.js` (`throw new Error(...)` sites), with the
data interpolated into each message. -/
inductive AlphaError where
  /-- `'Unknown symbol "' + ch + '" in "' + str + '"'` from `splitSymbols`:
  carries the offending character and the original text. -/
  | unknownSymbolChar : Char → Str → AlphaError
  /-- `'Unknown symbol: "' + symbol + '"'` from `getSymbolInfo`. -/
  | unknownSymbol : Str → AlphaError
  /-- `'No matching character found for "' + s[0] + '"'` from `setCase`
  (`s[0]` is the first character of the offending token). -/
  | noMatchingCase : Str → AlphaError
  /-- `'Mulitple matching characters found for "' + s[0] + '"'` from `setCase`. -/
  | multipleMatchingCase : Str → AlphaError
  /-- `'No matching symbol without accents for "' + symbol[0] + '"'` from
  `removeSymbolAccent` (`symbol[0]` is the entry's symbol string). -/
  | noUnaccentedForm : Str → AlphaError
  deriving Repr, DecidableEq

deriving instance DecidableEq for Except

/-- Coerce a Lean string literal to the `Str` model. -/
def strL (s : String) : Str := s.data

/-- `getSymbols(alphabet)`: the ordered list of the table's symbol strings. -/
def getSymbols (alphabet : Alphabet) : List Str :=
  alphabet.map (·.symbol)

/-- The helper `validSymbolPart(str)` inside `splitSymbols`: `str` is a prefix of
at least one symbol of the reference list (`reference[i].substr(0, str.length) === str`). -/
def validSymbolPart (reference : List Str) (s : Str) : Bool :=
  reference.any fun r => r.take s.length == s

/-- The character loop of `splitSymbols`: `rest` is the unread input, `buffer`
the growing candidate. A character that extends the buffer to a valid prefix is
buffered; otherwise a non-empty buffer is emitted and the character must start a
new buffer on its own, else `Unknown symbol` is thrown with the character and
the original text `orig`. A trailing non-empty buffer is emitted at the end. -/
def splitSymbolsAux (reference : List Str) (orig : Str) : Str → Str → Except AlphaError (List Str)
  | [], buffer => .ok (if buffer.isEmpty then [] else [buffer])
  | ch :: rest, buffer =>
    if validSymbolPart reference (buffer ++ [ch]) then
      splitSymbolsAux reference orig rest (buffer ++ [ch])
    else
      if validSymbolPart reference [ch] then
        match splitSymbolsAux reference orig rest [ch] with
        | .error e => .error e
        | .ok toks => .ok ((if buffer.isEmpty then [] else [buffer]) ++ toks)
      else
        .error (.unknownSymbolChar ch orig)

/-- `splitSymbols(alphabet, str)`: greedy longest-match tokenization. -/
def splitSymbols (alphabet : Alphabet) (str : Str) : Except AlphaError (List Str) :=
  splitSymbolsAux (getSymbols alphabet) str str []

/-- `zeroPad(min, str)` as written: prepend `'0'` while `str.length < min`.
This is the behavior when the argument is an actual string. -/
def zeroPad (minLen : Nat) (s : Str) : Str :=
  if s.length < minLen then zeroPad minLen ('0' :: s) else s
  termination_by minLen - s.length
  decreasing_by simp; omega

/-- The decimal string a JavaScript number produces under string coercion
(`'' + n`), for integers. -/
def numToStr (n : Int) : Str :=
  if n < 0 then '-' :: Nat.toDigits 10 (-n).toNat else Nat.toDigits 10 n.toNat

/-- `zeroPad(min, sortbase)` as actually called from `sortValue`: `sortbase` is
a number, not a string, so `str.length` is `undefined`, `undefined < min` is
`false`, the loop body never runs, and the number is returned unchanged; the
subsequent `value += ...` coerces it to its plain (unpadded) decimal string. -/
def zeroPadNum (_minLen : Nat) (n : Int) : Str :=
  numToStr n

/-- First-match lookup of a symbol's table entry (`getSymbolInfo`). -/
def getSymbolInfo : Alphabet → Str → Except AlphaError SymbolDef
  | [], symbol => .error (.unknownSymbol symbol)
  | e :: rest, symbol =>
    if e.symbol = symbol then .ok e else getSymbolInfo rest symbol

/-- `getSortBase(alphabet, symbol)`: the `sortBase` field of the symbol's entry. -/
def getSortBase (alphabet : Alphabet) (symbol : Str) : Except AlphaError Int :=
  match getSymbolInfo alphabet symbol with
  | .error e => .error e
  | .ok info => .ok info.sortBase

/-- JavaScript `Array.prototype.map` under exceptions: apply `f` left to right,
propagating the first error. -/
def mapExcept {α β : Type} (f : α → Except AlphaError β) : List α → Except AlphaError (List β)
  | [] => .ok []
  | a :: as =>
    match f a with
    | .error e => .error e
    | .ok b =>
      match mapExcept f as with
      | .error e => .error e
      | .ok bs => .ok (b :: bs)

/-- `sortValue(alphabet, str)`: tokenize, look up each token's `sortBase`, pass
it through `zeroPad(2, ·)` (a no-op on numbers, see `zeroPadNum`), and
concatenate. -/
def sortValue (alphabet : Alphabet) (str : Str) : Except AlphaError Str :=
  match splitSymbols alphabet str with
  | .error e => .error e
  | .ok symbols =>
    match mapExcept (fun s =>
        match getSortBase alphabet s with
        | .error e => .error e
        | .ok sortbase => .ok (zeroPadNum 2 sortbase)) symbols with
    | .error e => .error e
    | .ok codes => .ok codes.flatten

/-- The filter predicate inside `setCase`: same `sortBase` and `accentRank` as
the token's entry, and `caseValue` equal to the requested case or `-1`. -/
def caseMatches (baseSort accentSort caseval : Int) (s : SymbolDef) : Bool :=
  s.sortBase == baseSort && s.accentRank == accentSort &&
    (s.caseValue == caseval || s.caseValue == -1)

/-- The per-token body of `setCase`: look up the token's entry, filter the whole
table with `caseMatches`; zero matches and multiple matches are errors (carrying
the token's first character `s[0]`), a unique match yields its symbol. -/
def setCaseSymbol (alphabet : Alphabet) (caseval : Int) (s : Str) : Except AlphaError Str :=
  match getSymbolInfo alphabet s with
  | .error e => .error e
  | .ok info =>
    match alphabet.filter (caseMatches info.sortBase info.accentRank caseval) with
    | [] => .error (.noMatchingCase (s.take 1))
    | [m] => .ok m.symbol
    | _ :: _ :: _ => .error (.multipleMatchingCase (s.take 1))

/-- `setCase(alphabet, str, caseval)`: tokenize, resolve each token through
`setCaseSymbol`, join the results. -/
def setCase (alphabet : Alphabet) (str : Str) (caseval : Int) : Except AlphaError Str :=
  match splitSymbols alphabet str with
  | .error e => .error e
  | .ok symbols =>
    match mapExcept (setCaseSymbol alphabet caseval) symbols with
    | .error e => .error e
    | .ok newcased => .ok newcased.flatten

/-- `toUpperCase(alphabet, str) = setCase(alphabet, str, 1)`. -/
def toUpperCase (alphabet : Alphabet) (str : Str) : Except AlphaError Str :=
  setCase alphabet str 1

/-- `toLowerCase(alphabet, str) = setCase(alphabet, str, 0)`. -/
def toLowerCase (alphabet : Alphabet) (str : Str) : Except AlphaError Str :=
  setCase alphabet str 0

/-- The loop predicate of `removeSymbolAccent`: same `sortBase`, `accentRank`
zero, same `caseValue`. -/
def unaccentedMatch (sortbase sortcase : Int) (s : SymbolDef) : Bool :=
  s.sortBase == sortbase && s.accentRank == 0 && s.caseValue == sortcase

/-- `removeSymbolAccent(alphabet, symbol)`: an entry with `accentRank` 0 is its
own unaccented form; otherwise the first entry matching `unaccentedMatch` is
returned, and a missing match throws. -/
def removeSymbolAccent (alphabet : Alphabet) (symbol : SymbolDef) : Except AlphaError Str :=
  if symbol.accentRank = 0 then .ok symbol.symbol
  else
    match alphabet.find? (unaccentedMatch symbol.sortBase symbol.caseValue) with
    | some s => .ok s.symbol
    | none => .error (.noUnaccentedForm symbol.symbol)

/-- One iteration of the `stripAccents` loop: look up the token's entry and
remove its accent. -/
def stripToken (alphabet : Alphabet) (t : Str) : Except AlphaError Str :=
  match getSymbolInfo alphabet t with
  | .error e => .error e
  | .ok s => removeSymbolAccent alphabet s

/-- `stripAccents(alphabet, str)`: tokenize, map each token through
`getSymbolInfo` and `removeSymbolAccent`, concatenate. -/
def stripAccents (alphabet : Alphabet) (str : Str) : Except AlphaError Str :=
  match splitSymbols alphabet str with
  | .error e => .error e
  | .ok symbols =>
    match mapExcept (stripToken alphabet) symbols with
    | .error e => .error e
    | .ok stripped => .ok stripped.flatten

/-- JavaScript `<` on strings: code-unit lexicographic comparison. -/
def strLt : Str → Str → Bool
  | _, [] => false
  | [], _ :: _ => true
  | a :: as, b :: bs => if a < b then true else if b < a then false else strLt as bs

/-- The spec's example alphabet `[["a",null,1,0,-1], ["b",null,2,0,0], ["B",null,2,0,1]]`. -/
def exAlphabet : Alphabet :=
  [⟨strL "a", none, 1, 0, -1⟩, ⟨strL "b", none, 2, 0, 0⟩, ⟨strL "B", none, 2, 0, 1⟩]

/-- An alphabet whose only symbol is the digraph `"ab"`: the single character
`"a"` is then a valid prefix that is never a complete symbol. -/
def digraphAlphabet : Alphabet := [⟨strL "ab", none, 1, 0, -1⟩]

/-- An alphabet with the two-digit `sortBase` 10 next to the single-digit 2. -/
def twoDigitAlphabet : Alphabet :=
  [⟨strL "b", none, 2, 0, -1⟩, ⟨strL "c", none, 10, 0, -1⟩]

/-- An accented entry `"b"` with two distinct unaccented siblings `"a"` and `"x"`
sharing its `sortBase` and `caseValue`. -/
def doubleBaseAlphabet : Alphabet :=
  [⟨strL "b", none, 1, 1, 0⟩, ⟨strL "a", none, 1, 0, 0⟩, ⟨strL "x", none, 1, 0, 0⟩]

/-- An alphabet where the uppercase forms of the lowercase letters `"x"` and
`"y"` concatenate to the case-neutral digraph symbol `"AB"`. -/
def mergeAlphabet : Alphabet :=
  [⟨strL "x", none, 1, 0, 0⟩, ⟨strL "A", none, 1, 0, 1⟩,
   ⟨strL "y", none, 2, 0, 0⟩, ⟨strL "B", none, 2, 0, 1⟩,
   ⟨strL "AB", none, 3, 0, -1⟩]

/-- An alphabet where stripping the accents of `"ab"` produces `"ac"`, which
re-tokenizes as the accented digraph symbol `"ac"`. -/
def accentAlphabet : Alphabet :=
  [⟨strL "a", none, 1, 0, 0⟩, ⟨strL "b", none, 2, 1, 0⟩, ⟨strL "c", none, 2, 0, 0⟩,
   ⟨strL "ac", none, 5, 1, 0⟩, ⟨strL "d", none, 5, 0, 0⟩]

/-- The states `(unread input, candidate buffer)` traversed by the character
loop of `splitSymbols`, as a reflexive-transitive reachability relation:
`Scan reference rest buffer rest' buffer'` holds when the loop, started with
unread input `rest` and buffer `buffer`, later reaches unread input `rest'`
with buffer `buffer'`. -/
inductive Scan (reference : List Str) : Str → Str → Str → Str → Prop
  | refl (rest buffer : Str) : Scan reference rest buffer rest buffer
  | extend {ch : Char} {rest buffer rest' buffer' : Str} :
      validSymbolPart reference (buffer ++ [ch]) = true →
      Scan reference rest (buffer ++ [ch]) rest' buffer' →
      Scan reference (ch :: rest) buffer rest' buffer'
  | restart {ch : Char} {rest buffer rest' buffer' : Str} :
      validSymbolPart reference (buffer ++ [ch]) = false →
      validSymbolPart reference [ch] = true →
      Scan reference rest [ch] rest' buffer' →
      Scan reference (ch :: rest) buffer rest' buffer'

/-!  Helper lemmas about the tokenizer loop.  -/

theorem scan_nil {reference : List Str} {buffer rest' buffer' : Str}
    (h : Scan reference [] buffer rest' buffer') : rest' = [] ∧ buffer' = buffer := by
  cases h
  exact ⟨rfl, rfl⟩

theorem splitSymbolsAux_ok_flatten (reference : List Str) (orig : Str) :
    ∀ (rest buffer : Str) (toks : List Str),
      splitSymbolsAux reference orig rest buffer = .ok toks →
      toks.flatten = buffer ++ rest := by
  intro rest
  induction rest with
  | nil =>
    intro buffer toks h
    simp only [splitSymbolsAux] at h
    injection h with h
    subst h
    cases buffer <;> simp
  | cons c rest ih =>
    intro buffer toks h
    simp only [splitSymbolsAux] at h
    cases hv : validSymbolPart reference (buffer ++ [c]) with
    | true =>
      rw [hv, if_pos rfl] at h
      have := ih (buffer ++ [c]) toks h
      simpa using this
    | false =>
      rw [hv] at h
      simp only [Bool.false_eq_true, if_false] at h
      cases hv2 : validSymbolPart reference [c] with
      | true =>
        rw [hv2, if_pos rfl] at h
        cases hs : splitSymbolsAux reference orig rest [c] with
        | error e => rw [hs] at h; exact absurd h (by simp)
        | ok toks' =>
          rw [hs] at h
          injection h with h
          subst h
          have := ih [c] toks' hs
          cases buffer <;> simp_all
      | false =>
        rw [hv2] at h
        simp at h

theorem splitSymbolsAux_ok_tokens (reference : List Str) (orig : Str) :
    ∀ (rest buffer : Str) (toks : List Str),
      splitSymbolsAux reference orig rest buffer = .ok toks →
      (buffer ≠ [] → validSymbolPart reference buffer = true) →
      ∀ t ∈ toks, t ≠ [] ∧ validSymbolPart reference t = true := by
  intro rest
  induction rest with
  | nil =>
    intro buffer toks h hbuf t ht
    simp only [splitSymbolsAux] at h
    injection h with h
    subst h
    cases buffer with
    | nil => simp at ht
    | cons b bs =>
      simp only [List.isEmpty_cons, Bool.false_eq_true, if_false, List.mem_singleton] at ht
      subst ht
      exact ⟨List.cons_ne_nil b bs, hbuf (List.cons_ne_nil b bs)⟩
  | cons c rest ih =>
    intro buffer toks h hbuf t ht
    simp only [splitSymbolsAux] at h
    cases hv : validSymbolPart reference (buffer ++ [c]) with
    | true =>
      rw [hv, if_pos rfl] at h
      exact ih (buffer ++ [c]) toks h (fun _ => hv) t ht
    | false =>
      rw [hv] at h
      simp only [Bool.false_eq_true, if_false] at h
      cases hv2 : validSymbolPart reference [c] with
      | true =>
        rw [hv2, if_pos rfl] at h
        cases hs : splitSymbolsAux reference orig rest [c] with
        | error e => rw [hs] at h; exact absurd h (by simp)
        | ok toks' =>
          rw [hs] at h
          injection h with h
          subst h
          rcases List.mem_append.mp ht with hmem | hmem
          · cases buffer with
            | nil => simp at hmem
            | cons b bs =>
              simp only [List.isEmpty_cons, Bool.false_eq_true, if_false,
                List.mem_singleton] at hmem
              subst hmem
              exact ⟨List.cons_ne_nil b bs, hbuf (List.cons_ne_nil b bs)⟩
          · exact ih [c] toks' hs (fun _ => hv2) t hmem
      | false =>
        rw [hv2] at h
        simp at h

theorem getSymbolInfo_mem :
    ∀ (alphabet : Alphabet) (s : Str) (info : SymbolDef),
      getSymbolInfo alphabet s = .ok info → info ∈ alphabet := by
  intro alphabet
  induction alphabet with
  | nil => intro s info h; simp [getSymbolInfo] at h
  | cons e rest ih =>
    intro s info h
    simp only [getSymbolInfo] at h
    by_cases he : e.symbol = s
    · rw [if_pos he] at h
      injection h with h
      subst h
      exact List.mem_cons_self _ _
    · rw [if_neg he] at h
      exact List.mem_cons_of_mem e (ih s info h)

theorem splitSymbolsAux_error_iff (reference : List Str) (orig : Str) :
    ∀ (rest buffer : Str) (c : Char) (txt : Str),
      splitSymbolsAux reference orig rest buffer = .error (.unknownSymbolChar c txt) ↔
        (txt = orig ∧ ∃ (buffer' rest' : Str),
          Scan reference rest buffer (c :: rest') buffer' ∧
          validSymbolPart reference (buffer' ++ [c]) = false ∧
          validSymbolPart reference [c] = false) := by
  intro rest
  induction rest with
  | nil =>
    intro buffer c txt
    constructor
    · intro h
      simp [splitSymbolsAux] at h
    · rintro ⟨-, buffer', rest', hscan, -, -⟩
      obtain ⟨h1, -⟩ := scan_nil hscan
      exact absurd h1 (List.cons_ne_nil c rest')
  | cons c0 rest ih =>
    intro buffer c txt
    simp only [splitSymbolsAux]
    cases hv : validSymbolPart reference (buffer ++ [c0]) with
    | true =>
      rw [if_pos rfl, ih (buffer ++ [c0]) c txt]
      constructor
      · rintro ⟨htxt, buffer', rest', hscan, h1, h2⟩
        exact ⟨htxt, buffer', rest', Scan.extend hv hscan, h1, h2⟩
      · rintro ⟨htxt, buffer', rest', hscan, h1, h2⟩
        refine ⟨htxt, ?_⟩
        cases hscan with
        | refl => simp [hv] at h1
        | extend hf hscan' => exact ⟨buffer', rest', hscan', h1, h2⟩
        | restart hf hv2' hscan' => simp [hv] at hf
    | false =>
      simp only [Bool.false_eq_true, if_false]
      cases hv2 : validSymbolPart reference [c0] with
      | true =>
        rw [if_pos rfl]
        constructor
        · intro h
          cases hs : splitSymbolsAux reference orig rest [c0] with
          | error e =>
            rw [hs] at h
            simp only [] at h
            injection h with h
            subst h
            obtain ⟨htxt, buffer', rest', hscan, h1, h2⟩ := (ih [c0] c txt).mp hs
            exact ⟨htxt, buffer', rest', Scan.restart hv hv2 hscan, h1, h2⟩
          | ok toks =>
            rw [hs] at h
            simp at h
        · rintro ⟨htxt, buffer', rest', hscan, h1, h2⟩
          cases hscan with
          | refl => simp [hv2] at h2
          | extend hf hscan' => simp [hv] at hf
          | restart hf hv2' hscan' =>
            have hrec := (ih [c0] c txt).mpr ⟨htxt, buffer', rest', hscan', h1, h2⟩
            rw [hrec]
      | false =>
        rw [if_neg (by simp)]
        constructor
        · intro h
          injection h with h
          injection h with h1 h2
          subst h1
          subst h2
          exact ⟨rfl, buffer, rest, Scan.refl _ _, hv, hv2⟩
        · rintro ⟨htxt, buffer', rest', hscan, h1, h2⟩
          cases hscan with
          | refl =>
            subst htxt
            rfl
          | extend hf hscan' => simp [hv] at hf
          | restart hf hv2' hscan' => simp [hv2] at hv2'

theorem splitSymbolsAux_error_shape (reference : List Str) (orig : Str) :
    ∀ (rest buffer : Str) (e : AlphaError),
      splitSymbolsAux reference orig rest buffer = .error e →
      ∃ c : Char, e = .unknownSymbolChar c orig := by
  intro rest
  induction rest with
  | nil => intro buffer e h; simp [splitSymbolsAux] at h
  | cons c rest ih =>
    intro buffer e h
    simp only [splitSymbolsAux] at h
    cases hv : validSymbolPart reference (buffer ++ [c]) with
    | true =>
      rw [hv, if_pos rfl] at h
      exact ih _ e h
    | false =>
      rw [hv] at h
      simp only [Bool.false_eq_true, if_false] at h
      cases hv2 : validSymbolPart reference [c] with
      | true =>
        rw [hv2, if_pos rfl] at h
        cases hs : splitSymbolsAux reference orig rest [c] with
        | error e' =>
          rw [hs] at h
          injection h with h
          subst h
          exact ih _ e' hs
        | ok toks =>
          rw [hs] at h
          simp at h
      | false =>
        rw [hv2] at h
        simp only [Bool.false_eq_true, if_false] at h
        injection h with h
        subst h
        exact ⟨c, rfl⟩

/-!  Claim theorems.  -/

/-- Claim C1 (code bug). The claim and the spec's example say
`sortValue(exAlphabet, "aB") = "0102"`: the tokens `"a"`, `"B"` have sort bases
1 and 2 and each is to be zero-padded to width 2. The code instead returns
`"12"`: the call `zeroPad(2, sortbase)` passes a number, `Number` has no
`.length`, so `undefined < 2` is `false` and the padding loop never runs. The
last two conjuncts show `zeroPad` applied to the actual decimal strings would
have produced the claimed padded codes `"01"` and `"02"`. -/
theorem sortValue_padding_bug :
    sortValue exAlphabet (strL "aB") = .ok (strL "12") ∧
    strL "12" ≠ strL "0102" ∧
    zeroPad 2 (numToStr 1) = strL "01" ∧
    zeroPad 2 (numToStr 2) = strL "02" :=
  ⟨rfl, by decide,
   by simp [zeroPad, numToStr, Nat.toDigits, Nat.toDigitsCore, Nat.digitChar, strL],
   by simp [zeroPad, numToStr, Nat.toDigits, Nat.toDigitsCore, Nat.digitChar, strL]⟩

/-- Claim C2 (counterexample). With the single digraph symbol `"ab"`, the text
`"a"` tokenizes without error, yet its sole token `"a"` is not a defined symbol
of the alphabet: the buffer was a valid prefix but never a complete symbol and
was emitted unverified. -/
theorem splitSymbols_emits_nonsymbol_token :
    splitSymbols digraphAlphabet (strL "a") = .ok [strL "a"] ∧
    strL "a" ∉ getSymbols digraphAlphabet :=
  ⟨rfl, by decide⟩

/-- Claim C2 (amended). Every token returned by a successful `splitSymbols` run
is non-empty and is a prefix of some defined symbol of the alphabet
(`validSymbolPart`); it need not be a complete symbol itself. -/
theorem splitSymbols_tokens_valid_prefixes (alphabet : Alphabet) (str : Str)
    (toks : List Str) (h : splitSymbols alphabet str = .ok toks) :
    ∀ t ∈ toks, t ≠ [] ∧ validSymbolPart (getSymbols alphabet) t = true :=
  splitSymbolsAux_ok_tokens (getSymbols alphabet) str str [] toks h
    (fun hc => absurd rfl hc)

/-- Witness for `splitSymbols_tokens_valid_prefixes` at the spec's example
alphabet and text `"aB"`. -/
theorem splitSymbols_tokens_valid_prefixes_witness :
    strL "B" ≠ [] ∧ validSymbolPart (getSymbols exAlphabet) (strL "B") = true :=
  splitSymbols_tokens_valid_prefixes exAlphabet (strL "aB") [strL "a", strL "B"] rfl
    (strL "B") (by decide)

/-- Claim C3 (confirmed). Concatenating the tokens of a successful
`splitSymbols` run reproduces the input text exactly. -/
theorem splitSymbols_flatten_roundtrip (alphabet : Alphabet) (str : Str)
    (toks : List Str) (h : splitSymbols alphabet str = .ok toks) :
    toks.flatten = str :=
  splitSymbolsAux_ok_flatten (getSymbols alphabet) str str [] toks h

/-- Witness for `splitSymbols_flatten_roundtrip` at the spec's example alphabet
and text `"aB"`. -/
theorem splitSymbols_flatten_roundtrip_witness :
    ([strL "a", strL "B"] : List Str).flatten = strL "aB" :=
  splitSymbols_flatten_roundtrip exAlphabet (strL "aB") [strL "a", strL "B"] rfl

/-- Claim C4 (code bug). Sort bases 2 and 10 both lie in `[0, 99]` and the
alphabet ranks `"b"` strictly before `"c"` symbol-by-symbol, but the unpadded
sort keys compare the other way under lexicographic comparison: `"2" > "10"`.
The last conjunct shows that with the intended two-digit padding the keys would
have compared correctly (`"02" < "10"`). -/
theorem sortValue_order_bug :
    sortValue twoDigitAlphabet (strL "b") = .ok (strL "2") ∧
    sortValue twoDigitAlphabet (strL "c") = .ok (strL "10") ∧
    strLt (strL "2") (strL "10") = false ∧
    strLt (strL "10") (strL "2") = true ∧
    strLt (zeroPad 2 (numToStr 2)) (zeroPad 2 (numToStr 10)) = true :=
  ⟨rfl, rfl, by decide, by decide,
   by simp [zeroPad, numToStr, Nat.toDigits, Nat.toDigitsCore, Nat.digitChar, strLt]⟩

/-- Claim C5 (confirmed). `splitSymbols` fails — always with an
`UnknownSymbolError` carrying the offending character and the original text —
exactly when the character loop reaches a state (`Scan`) where the next
character can neither extend the current candidate buffer to a valid prefix of
a table symbol nor itself begin one; in particular, on the example alphabet
(which has no symbol `"z"`), `splitSymbols "az"` fails with `'z'` and `"az"`. -/
theorem splitSymbols_unknownSymbol_iff :
    (∀ (alphabet : Alphabet) (str : Str) (c : Char) (txt : Str),
      splitSymbols alphabet str = .error (.unknownSymbolChar c txt) ↔
        (txt = str ∧ ∃ (buffer rest' : Str),
          Scan (getSymbols alphabet) str [] (c :: rest') buffer ∧
          validSymbolPart (getSymbols alphabet) (buffer ++ [c]) = false ∧
          validSymbolPart (getSymbols alphabet) [c] = false)) ∧
    (∀ (alphabet : Alphabet) (str : Str) (e : AlphaError),
      splitSymbols alphabet str = .error e →
      ∃ c : Char, e = .unknownSymbolChar c str) ∧
    splitSymbols exAlphabet (strL "az") = .error (.unknownSymbolChar 'z' (strL "az")) :=
  ⟨fun alphabet str c txt => splitSymbolsAux_error_iff (getSymbols alphabet) str str [] c txt,
   fun alphabet str e h => splitSymbolsAux_error_shape (getSymbols alphabet) str str [] e h,
   rfl⟩

/-- Claim C6 (confirmed). `setCase` tokenizes and resolves each token through
`setCaseSymbol` (last conjunct, definitional); a token resolves by filtering
the full table with `caseMatches` (same `sortBase` and `accentRank` as the
token's entry, `caseValue` equal to the target or `-1`): zero matches is the
no-matching-character error, two or more matches is the
multiple-matching-characters error — never resolved by taking the first match
— and exactly one match yields that entry's symbol. -/
theorem setCase_match_discipline (alphabet : Alphabet) (caseval : Int)
    (t : Str) (info : SymbolDef) (h : getSymbolInfo alphabet t = .ok info) :
    (alphabet.filter (caseMatches info.sortBase info.accentRank caseval) = [] →
      setCaseSymbol alphabet caseval t = .error (.noMatchingCase (t.take 1))) ∧
    ((alphabet.filter (caseMatches info.sortBase info.accentRank caseval)).length > 1 →
      setCaseSymbol alphabet caseval t = .error (.multipleMatchingCase (t.take 1))) ∧
    (∀ m, alphabet.filter (caseMatches info.sortBase info.accentRank caseval) = [m] →
      setCaseSymbol alphabet caseval t = .ok m.symbol) ∧
    (∀ str, setCase alphabet str caseval =
      match splitSymbols alphabet str with
      | .error e => .error e
      | .ok symbols =>
        match mapExcept (setCaseSymbol alphabet caseval) symbols with
        | .error e => .error e
        | .ok newcased => .ok newcased.flatten) := by
  refine ⟨?_, ?_, ?_, fun str => rfl⟩
  · intro hf
    simp only [setCaseSymbol, h, hf]
  · intro hlen
    cases hf : alphabet.filter (caseMatches info.sortBase info.accentRank caseval) with
    | nil => rw [hf] at hlen; simp at hlen
    | cons m ms =>
      cases ms with
      | nil => rw [hf] at hlen; simp at hlen
      | cons m' ms' => simp only [setCaseSymbol, h, hf]
  · intro m hf
    simp only [setCaseSymbol, h, hf]

/-- Witness for `setCase_match_discipline`: on the example alphabet the token
`"b"` (entry `["b",null,2,0,0]`) requested at target case 1 has the unique
match `["B",null,2,0,1]`, so it resolves to `"B"`. -/
theorem setCase_match_discipline_witness :
    setCaseSymbol exAlphabet 1 (strL "b") = .ok (strL "B") :=
  (setCase_match_discipline exAlphabet 1 (strL "b") ⟨strL "b", none, 2, 0, 0⟩ rfl).2.2.1
    ⟨strL "B", none, 2, 0, 1⟩ rfl

/-- Claim C7 (counterexample). The claim says a table in which more than one
entry matches an accent-stripping request surfaces a runtime error. Here the
accented entry `["b",null,1,1,0]` has two unaccented siblings with its
`sortBase` and `caseValue`, yet `removeSymbolAccent` silently returns the first
match `"a"` instead of raising an error. -/
theorem removeSymbolAccent_silent_first_match :
    (doubleBaseAlphabet.filter (unaccentedMatch 1 0)).length = 2 ∧
    removeSymbolAccent doubleBaseAlphabet ⟨strL "b", none, 1, 1, 0⟩ = .ok (strL "a") :=
  ⟨by decide, rfl⟩

/-- Claim C7 (amended). For an accented symbol definition (`accentRank ≠ 0`),
`removeSymbolAccent` scans for entries with the same `sortBase`, `accentRank`
zero and the same `caseValue`: no match raises `NoUnaccentedFormError` carrying
the symbol, and otherwise the **first** matching entry's symbol is returned
(multiple matches are resolved by first match, not detected as an error). -/
theorem removeSymbolAccent_amended (alphabet : Alphabet) (sd : SymbolDef)
    (h : sd.accentRank ≠ 0) :
    (alphabet.find? (unaccentedMatch sd.sortBase sd.caseValue) = none →
      removeSymbolAccent alphabet sd = .error (.noUnaccentedForm sd.symbol)) ∧
    (∀ m, alphabet.find? (unaccentedMatch sd.sortBase sd.caseValue) = some m →
      removeSymbolAccent alphabet sd = .ok m.symbol) := by
  constructor
  · intro hf
    simp only [removeSymbolAccent, if_neg h, hf]
  · intro m hf
    simp only [removeSymbolAccent, if_neg h, hf]

/-- Witness for `removeSymbolAccent_amended`: a one-entry table with only the
accented `["b",null,1,1,0]` has no unaccented sibling, so accent removal on
that entry fails with `NoUnaccentedFormError`. -/
theorem removeSymbolAccent_amended_witness :
    removeSymbolAccent [⟨strL "b", none, 1, 1, 0⟩] ⟨strL "b", none, 1, 1, 0⟩ =
      .error (.noUnaccentedForm (strL "b")) :=
  (removeSymbolAccent_amended [⟨strL "b", none, 1, 1, 0⟩] ⟨strL "b", none, 1, 1, 0⟩
    (by decide)).1 rfl

/-- Claim C10 (confirmed). On the empty string every text-level operation
succeeds and returns the empty result: `splitSymbols` the empty token list,
`sortValue`, `setCase` (for any target case) and `stripAccents` the empty
string. -/
theorem empty_text_operations (alphabet : Alphabet) (caseval : Int) :
    splitSymbols alphabet [] = .ok [] ∧
    sortValue alphabet [] = .ok [] ∧
    setCase alphabet [] caseval = .ok [] ∧
    stripAccents alphabet [] = .ok [] :=
  ⟨rfl, rfl, rfl, rfl⟩

/-!  Helper lemmas for round-trips through case conversion and accent removal. -/

theorem setCaseSymbol_roundtrip (alphabet : Alphabet)
    (Huniq : ∀ e ∈ alphabet, getSymbolInfo alphabet e.symbol = .ok e)
    (t u w : Str) (h1 : setCaseSymbol alphabet 1 t = .ok u)
    (h0 : setCaseSymbol alphabet 0 t = .ok w) :
    setCaseSymbol alphabet 0 u = .ok w := by
  cases hinfo : getSymbolInfo alphabet t with
  | error e => simp [setCaseSymbol, hinfo] at h1
  | ok info =>
    simp only [setCaseSymbol, hinfo] at h1 h0
    cases hf1 : alphabet.filter (caseMatches info.sortBase info.accentRank 1) with
    | nil => rw [hf1] at h1; simp at h1
    | cons m ms =>
      cases ms with
      | cons m' ms' => rw [hf1] at h1; simp at h1
      | nil =>
        rw [hf1] at h1
        injection h1 with h1
        subst h1
        have hmem : m ∈ alphabet.filter (caseMatches info.sortBase info.accentRank 1) := by
          rw [hf1]; exact List.mem_singleton_self m
        obtain ⟨hmA, hmP⟩ := List.mem_filter.mp hmem
        simp only [caseMatches, Bool.and_eq_true, beq_iff_eq] at hmP
        obtain ⟨⟨hsb, har⟩, -⟩ := hmP
        simp only [setCaseSymbol, Huniq m hmA, hsb, har]
        cases hf0 : alphabet.filter (caseMatches info.sortBase info.accentRank 0) with
        | nil => rw [hf0] at h0; simp at h0
        | cons n ns =>
          cases ns with
          | cons n' ns' => rw [hf0] at h0; simp at h0
          | nil =>
            rw [hf0] at h0
            injection h0 with h0
            subst h0
            rfl

theorem mapExcept_setCase_roundtrip (alphabet : Alphabet)
    (Huniq : ∀ e ∈ alphabet, getSymbolInfo alphabet e.symbol = .ok e) :
    ∀ (toks utoks ws : List Str),
      mapExcept (setCaseSymbol alphabet 1) toks = .ok utoks →
      mapExcept (setCaseSymbol alphabet 0) toks = .ok ws →
      mapExcept (setCaseSymbol alphabet 0) utoks = .ok ws := by
  intro toks
  induction toks with
  | nil =>
    intro utoks ws h1 h0
    simp only [mapExcept] at h1 h0
    injection h1 with h1
    injection h0 with h0
    subst h1
    subst h0
    rfl
  | cons t ts ih =>
    intro utoks ws h1 h0
    simp only [mapExcept] at h1 h0
    cases hc1 : setCaseSymbol alphabet 1 t with
    | error e => rw [hc1] at h1; simp at h1
    | ok u =>
      rw [hc1] at h1
      cases hr1 : mapExcept (setCaseSymbol alphabet 1) ts with
      | error e => rw [hr1] at h1; simp at h1
      | ok us =>
        rw [hr1] at h1
        injection h1 with h1
        subst h1
        cases hc0 : setCaseSymbol alphabet 0 t with
        | error e => rw [hc0] at h0; simp at h0
        | ok w =>
          rw [hc0] at h0
          cases hr0 : mapExcept (setCaseSymbol alphabet 0) ts with
          | error e => rw [hr0] at h0; simp at h0
          | ok ws' =>
            rw [hr0] at h0
            injection h0 with h0
            subst h0
            simp only [mapExcept, setCaseSymbol_roundtrip alphabet Huniq t u w hc1 hc0,
              ih us ws' hr1 hr0]

theorem stripToken_fixed (alphabet : Alphabet)
    (Huniq : ∀ e ∈ alphabet, getSymbolInfo alphabet e.symbol = .ok e)
    (t s : Str) (h : stripToken alphabet t = .ok s) :
    stripToken alphabet s = .ok s := by
  cases hinfo : getSymbolInfo alphabet t with
  | error e => simp [stripToken, hinfo] at h
  | ok i =>
    simp only [stripToken, hinfo] at h
    simp only [removeSymbolAccent] at h
    by_cases hacc : i.accentRank = 0
    · rw [if_pos hacc] at h
      injection h with h
      subst h
      have hmem := getSymbolInfo_mem alphabet t i hinfo
      simp only [stripToken, Huniq i hmem, removeSymbolAccent]
      rw [if_pos hacc]
    · rw [if_neg hacc] at h
      cases hf : alphabet.find? (unaccentedMatch i.sortBase i.caseValue) with
      | none => rw [hf] at h; simp at h
      | some m =>
        rw [hf] at h
        injection h with h
        subst h
        have hmem : m ∈ alphabet := List.mem_of_find?_eq_some hf
        have hpred := List.find?_some hf
        simp only [unaccentedMatch, Bool.and_eq_true, beq_iff_eq] at hpred
        obtain ⟨⟨-, hacc0⟩, -⟩ := hpred
        simp only [stripToken, Huniq m hmem, removeSymbolAccent]
        rw [if_pos hacc0]

theorem mapExcept_stripToken_fixed (alphabet : Alphabet)
    (Huniq : ∀ e ∈ alphabet, getSymbolInfo alphabet e.symbol = .ok e) :
    ∀ (toks stoks : List Str),
      mapExcept (stripToken alphabet) toks = .ok stoks →
      mapExcept (stripToken alphabet) stoks = .ok stoks := by
  intro toks
  induction toks with
  | nil =>
    intro stoks h
    simp only [mapExcept] at h
    injection h with h
    subst h
    rfl
  | cons t ts ih =>
    intro stoks h
    simp only [mapExcept] at h
    cases hc : stripToken alphabet t with
    | error e => rw [hc] at h; simp at h
    | ok s =>
      rw [hc] at h
      cases hr : mapExcept (stripToken alphabet) ts with
      | error e => rw [hr] at h; simp at h
      | ok ss =>
        rw [hr] at h
        injection h with h
        subst h
        simp only [mapExcept, stripToken_fixed alphabet Huniq t s hc, ih ss hr]

/-- Claim C8 (counterexample). The text `"xy"` is composed only of symbols with
`caseValue` 0 (conjuncts 1-3), yet
`toLowerCase(toUpperCase("xy")) = "AB" ≠ "xy" = toLowerCase("xy")`: the
uppercase forms `"A"`, `"B"` concatenate to `"AB"`, which re-tokenizes as the
case-neutral digraph symbol `"AB"` and passes through lowercasing unchanged. -/
theorem case_involution_fails_on_retokenization :
    splitSymbols mergeAlphabet (strL "xy") = .ok [strL "x", strL "y"] ∧
    getSymbolInfo mergeAlphabet (strL "x") = .ok ⟨strL "x", none, 1, 0, 0⟩ ∧
    getSymbolInfo mergeAlphabet (strL "y") = .ok ⟨strL "y", none, 2, 0, 0⟩ ∧
    toUpperCase mergeAlphabet (strL "xy") = .ok (strL "AB") ∧
    toLowerCase mergeAlphabet (strL "AB") = .ok (strL "AB") ∧
    toLowerCase mergeAlphabet (strL "xy") = .ok (strL "xy") ∧
    strL "AB" ≠ strL "xy" :=
  ⟨rfl, rfl, rfl, rfl, rfl, rfl, by decide⟩

/-- Claim C8 (amended). For text composed only of symbols with `caseValue` in
{0, 1}, `toLowerCase(toUpperCase(text)) = toLowerCase(text)` holds provided the
uppercased text re-tokenizes into exactly the per-token uppercase forms
(`Hresplit`) and each table entry is recovered by looking up its own symbol
(`Huniq`, first-match lookup on unique symbol strings); the counterexample
shows the equation fails without `Hresplit`. -/
theorem case_involution_amended (alphabet : Alphabet) (str : Str)
    (toks utoks : List Str) (low : Str)
    (Huniq : ∀ e ∈ alphabet, getSymbolInfo alphabet e.symbol = .ok e)
    (_Hcase : ∀ t ∈ toks, ∃ i, getSymbolInfo alphabet t = .ok i ∧
      (i.caseValue = 0 ∨ i.caseValue = 1))
    (Hsplit : splitSymbols alphabet str = .ok toks)
    (Hupper : mapExcept (setCaseSymbol alphabet 1) toks = .ok utoks)
    (Hresplit : splitSymbols alphabet utoks.flatten = .ok utoks)
    (Hlow : toLowerCase alphabet str = .ok low) :
    toUpperCase alphabet str = .ok utoks.flatten ∧
    toLowerCase alphabet utoks.flatten = .ok low := by
  constructor
  · simp only [toUpperCase, setCase, Hsplit, Hupper]
  · simp only [toLowerCase, setCase, Hsplit] at Hlow
    cases hm0 : mapExcept (setCaseSymbol alphabet 0) toks with
    | error e => rw [hm0] at Hlow; simp at Hlow
    | ok ls =>
      rw [hm0] at Hlow
      injection Hlow with Hlow
      simp only [toLowerCase, setCase, Hresplit,
        mapExcept_setCase_roundtrip alphabet Huniq toks utoks ls Hupper hm0]
      rw [Hlow]

/-- Witness for `case_involution_amended` on the example alphabet at text
`"b"`: its uppercase form is `"B"` and lowercasing either side gives `"b"`. -/
theorem case_involution_amended_witness :
    toUpperCase exAlphabet (strL "b") = .ok (([strL "B"] : List Str).flatten) ∧
    toLowerCase exAlphabet (([strL "B"] : List Str).flatten) = .ok (strL "b") :=
  case_involution_amended exAlphabet (strL "b") [strL "b"] [strL "B"] (strL "b")
    (by decide)
    (by
      intro t ht
      rw [List.mem_singleton] at ht
      subst ht
      exact ⟨⟨strL "b", none, 2, 0, 0⟩, rfl, Or.inl rfl⟩)
    rfl rfl rfl rfl

/-- Claim C9 (counterexample). Stripping accents of `"ab"` yields `"ac"`
(`"b"`'s unaccented sibling is `"c"`), but `"ac"` re-tokenizes as the accented
digraph symbol `"ac"`, so a second pass yields `"d"`: `stripAccents` is not
idempotent. -/
theorem stripAccents_not_idempotent_on_retokenization :
    stripAccents accentAlphabet (strL "ab") = .ok (strL "ac") ∧
    stripAccents accentAlphabet (strL "ac") = .ok (strL "d") ∧
    strL "ac" ≠ strL "d" :=
  ⟨rfl, rfl, by decide⟩

/-- Claim C9 (amended). `stripAccents` is idempotent provided the stripped text
re-tokenizes into exactly the per-token stripped forms (`Hresplit`) and each
table entry is recovered by looking up its own symbol (`Huniq`); each stripped
token is then the symbol of an entry with `accentRank` 0, which the
short-circuit in `removeSymbolAccent` returns unchanged. The counterexample
shows idempotence fails without `Hresplit`. -/
theorem stripAccents_idempotent_amended (alphabet : Alphabet) (str : Str)
    (toks stoks : List Str)
    (Huniq : ∀ e ∈ alphabet, getSymbolInfo alphabet e.symbol = .ok e)
    (Hsplit : splitSymbols alphabet str = .ok toks)
    (Hstrip : mapExcept (stripToken alphabet) toks = .ok stoks)
    (Hresplit : splitSymbols alphabet stoks.flatten = .ok stoks) :
    stripAccents alphabet str = .ok stoks.flatten ∧
    stripAccents alphabet stoks.flatten = .ok stoks.flatten := by
  constructor
  · simp only [stripAccents, Hsplit, Hstrip]
  · simp only [stripAccents, Hresplit,
      mapExcept_stripToken_fixed alphabet Huniq toks stoks Hstrip]

/-- Witness for `stripAccents_idempotent_amended` on the example alphabet at
text `"aB"` (all entries unaccented): stripping is the identity twice over. -/
theorem stripAccents_idempotent_amended_witness :
    stripAccents exAlphabet (strL "aB") = .ok (([strL "a", strL "B"] : List Str).flatten) ∧
    stripAccents exAlphabet (([strL "a", strL "B"] : List Str).flatten) =
      .ok (([strL "a", strL "B"] : List Str).flatten) :=
  stripAccents_idempotent_amended exAlphabet (strL "aB") [strL "a", strL "B"]
    [strL "a", strL "B"] (by decide) rfl rfl rfl
